import Mathlib

/-!
Verification of the "linkedin-search" backend (`src/backend/server.py`)
against its natural-language specification.

The development shallowly embeds the five HTTP handlers of the service:
the Google-search relay (`search_linkedin_profiles`), and the Mongo-backed
profile store (`save_profile`, `get_saved_profiles`, `delete_profile`,
`update_profile_tags`).  The Mongo collection is modelled as a list of
stored documents in insertion order; `datetime.now(timezone.utc)` values
and freshly generated UUIDs are passed to the handlers as explicit
parameters; the external search provider is a function parameter.

Machine-level aspects that the handlers rely on are modelled from their
documented behaviour:
  * Python's `datetime.isoformat` / `datetime.fromisoformat` for aware UTC
    datetimes (microseconds printed only when nonzero, offset `+00:00`);
    `fromisoformat` is modelled on the string shapes `isoformat` emits.
  * MongoDB's binary string comparison used by `sort("saved_at", -1)`,
    as codepoint-wise lexicographic comparison (the strings involved are
    ASCII, where codepoint order and UTF-8 byte order agree).
  * MongoDB `$regex` with `$options: "i"`: matching is modelled for
    patterns built from literal characters and the `.` wildcard (any
    character except a newline); patterns containing other PCRE
    metacharacters are outside the model, and every theorem that
    quantifies over patterns restricts to the modelled fragment.
    Case-insensitivity is modelled by lowercasing pattern and subject.
-/

/-! ### Python `datetime`, `isoformat` and `fromisoformat` -/

/-- Datetime: an aware UTC `datetime` value as produced by
`datetime.now(timezone.utc)`: calendar fields plus microseconds. -/
structure PyDatetime where
  year : Nat
  month : Nat
  day : Nat
  hour : Nat
  minute : Nat
  second : Nat
  microsecond : Nat
deriving DecidableEq, Repr

/-- Field bounds guaranteed by Python's `datetime` type. -/
def validDt (t : PyDatetime) : Prop :=
  t.year < 10000 ∧ 1 ≤ t.month ∧ t.month ≤ 12 ∧ 1 ≤ t.day ∧ t.day ≤ 31 ∧
    t.hour < 24 ∧ t.minute < 60 ∧ t.second < 60 ∧ t.microsecond < 1000000

instance (t : PyDatetime) : Decidable (validDt t) := by
  unfold validDt; infer_instance

/-- Big-endian decimal digits of `n % 10 ^ w`, fixed width `w`
(the behaviour of Python's zero-padded `%0wd` formatting for `n < 10 ^ w`). -/
def digitsBE : Nat → Nat → List Nat
  | 0, _ => []
  | w + 1, n => n / 10 ^ w % 10 :: digitsBE w n

/-- Fixed-width zero-padded decimal rendering, as characters. -/
def digChars (w n : Nat) : List Char :=
  (digitsBE w n).map Nat.digitChar

/-- Character list of `datetime.isoformat()` for an aware UTC datetime:
`YYYY-MM-DDTHH:MM:SS[.ffffff]+00:00`, the fractional part printed only
when `microsecond` is nonzero. -/
def isoChars (t : PyDatetime) : List Char :=
  digChars 4 t.year ++ '-' :: digChars 2 t.month ++ '-' :: digChars 2 t.day ++
    'T' :: digChars 2 t.hour ++ ':' :: digChars 2 t.minute ++ ':' :: digChars 2 t.second ++
    (if t.microsecond = 0 then [] else '.' :: digChars 6 t.microsecond) ++
    ['+', '0', '0', ':', '0', '0']

/-- Python `datetime.isoformat()` (aware UTC case), as a string. -/
def isoformat (t : PyDatetime) : String :=
  String.mk (isoChars t)

/-- Reads exactly `w` decimal digits, folding them onto `acc`. -/
def readFixed : Nat → Nat → List Char → Option (Nat × List Char)
  | 0, acc, cs => some (acc, cs)
  | _ + 1, _, [] => none
  | w + 1, acc, c :: cs =>
      if c.isDigit then readFixed w (acc * 10 + (c.toNat - 48)) cs else none

/-- Consumes one expected character. -/
def expectChar (c : Char) : List Char → Option (List Char)
  | [] => none
  | x :: xs => if x = c then some xs else none

/-- Consumes an expected character sequence. -/
def expectChars : List Char → List Char → Option (List Char)
  | [], cs => some cs
  | e :: es, cs => do
      let cs ← expectChar e cs
      expectChars es cs

/-- Reads the optional `.ffffff` fractional-seconds part; when the next
character is not a dot the fraction is zero and nothing is consumed. -/
def parseFrac : List Char → Option (Nat × List Char)
  | [] => some (0, [])
  | c :: rest => if c = '.' then readFixed 6 0 rest else some (0, c :: rest)

/-- Python `datetime.fromisoformat`, modelled on the string shapes that
`isoformat` emits for aware UTC datetimes (which is the only shape the
service ever stores): `YYYY-MM-DDTHH:MM:SS[.ffffff]+00:00`. -/
def parseIsoChars (cs : List Char) : Option PyDatetime := do
  let (y, cs) ← readFixed 4 0 cs
  let cs ← expectChar '-' cs
  let (mo, cs) ← readFixed 2 0 cs
  let cs ← expectChar '-' cs
  let (d, cs) ← readFixed 2 0 cs
  let cs ← expectChar 'T' cs
  let (h, cs) ← readFixed 2 0 cs
  let cs ← expectChar ':' cs
  let (mi, cs) ← readFixed 2 0 cs
  let cs ← expectChar ':' cs
  let (s, cs) ← readFixed 2 0 cs
  let (us, cs) ← parseFrac cs
  let cs ← expectChars ['+', '0', '0', ':', '0', '0'] cs
  if cs.isEmpty then some ⟨y, mo, d, h, mi, s, us⟩ else none

/-- `fromisoformat` on strings. -/
def parseIso (s : String) : Option PyDatetime :=
  parseIsoChars s.data

/-! ### Round-trip of `isoformat` through `fromisoformat` -/

theorem digitsBE_congr :
    ∀ w m n, m % 10 ^ w = n % 10 ^ w → digitsBE w m = digitsBE w n := by
  intro w
  induction w with
  | zero => intro m n _; rfl
  | succ w ih =>
      intro m n h
      have hP : 0 < 10 ^ w := Nat.pos_pow_of_pos w (by norm_num)
      have hm := Nat.mod_pow_succ (x := m) (b := 10) (k := w)
      have hn := Nat.mod_pow_succ (x := n) (b := 10) (k := w)
      have hmlt : m % 10 ^ w < 10 ^ w := Nat.mod_lt _ hP
      have hnlt : n % 10 ^ w < 10 ^ w := Nat.mod_lt _ hP
      have hdm : m % 10 ^ (w + 1) / 10 ^ w = m / 10 ^ w % 10 := by
        rw [hm, Nat.add_mul_div_left _ _ hP, Nat.div_eq_of_lt hmlt, Nat.zero_add]
      have hdn : n % 10 ^ (w + 1) / 10 ^ w = n / 10 ^ w % 10 := by
        rw [hn, Nat.add_mul_div_left _ _ hP, Nat.div_eq_of_lt hnlt, Nat.zero_add]
      have hdig : m / 10 ^ w % 10 = n / 10 ^ w % 10 := by rw [← hdm, ← hdn, h]
      have hmod : m % 10 ^ w = n % 10 ^ w := by
        have h2 := congrArg (· % 10 ^ w) h
        simpa [hm, hn, Nat.add_mul_mod_self_left, Nat.mod_eq_of_lt hmlt,
          Nat.mod_eq_of_lt hnlt] using h2
      simp [digitsBE, hdig, ih _ _ hmod]

theorem digitChar_isDigit {d : Nat} (h : d < 10) : (Nat.digitChar d).isDigit = true := by
  interval_cases d <;> decide

theorem digitChar_toNat {d : Nat} (h : d < 10) : (Nat.digitChar d).toNat = d + 48 := by
  interval_cases d <;> decide

theorem readFixed_cons_digit (w acc : Nat) (c : Char) (cs : List Char)
    (h : c.isDigit = true) :
    readFixed (w + 1) acc (c :: cs) = readFixed w (acc * 10 + (c.toNat - 48)) cs := by
  simp [readFixed, h]

theorem readFixed_digChars :
    ∀ w acc n rest,
      readFixed w acc (digChars w n ++ rest) = some (acc * 10 ^ w + n % 10 ^ w, rest) := by
  intro w
  induction w with
  | zero => intro acc n rest; simp [digChars, digitsBE, readFixed, Nat.mod_one]
  | succ w ih =>
      intro acc n rest
      have hd : n / 10 ^ w % 10 < 10 := Nat.mod_lt _ (by norm_num)
      have h1 : digChars (w + 1) n = Nat.digitChar (n / 10 ^ w % 10) :: digChars w n := by
        simp [digChars, digitsBE]
      rw [h1, List.cons_append, readFixed_cons_digit _ _ _ _ (digitChar_isDigit hd),
        digitChar_toNat hd, Nat.add_sub_cancel, ih]
      have hmod := Nat.mod_pow_succ (x := n) (b := 10) (k := w)
      simp only [Prod.mk.injEq, Option.some.injEq]
      exact ⟨by rw [hmod, pow_succ]; ring, trivial⟩

theorem expectChar_self (c : Char) (rest : List Char) :
    expectChar c (c :: rest) = some rest := by
  simp [expectChar]

theorem parseFrac_dot (rest : List Char) :
    parseFrac ('.' :: rest) = readFixed 6 0 rest := rfl

theorem parseFrac_plus (rest : List Char) :
    parseFrac ('+' :: rest) = some (0, '+' :: rest) := rfl

theorem expectOffset (rest : List Char) :
    expectChars ['+', '0', '0', ':', '0', '0']
      ('+' :: '0' :: '0' :: ':' :: '0' :: '0' :: rest) = some rest := rfl

set_option maxHeartbeats 800000 in
theorem parseIso_isoformat (t : PyDatetime) (h : validDt t) :
    parseIso (isoformat t) = some t := by
  obtain ⟨hy, hmo1, hmo2, hd1, hd2, hh, hmi, hs, hus⟩ := h
  have ey : t.year % 10 ^ 4 = t.year := Nat.mod_eq_of_lt (by omega)
  have emo : t.month % 10 ^ 2 = t.month := Nat.mod_eq_of_lt (by omega)
  have ed : t.day % 10 ^ 2 = t.day := Nat.mod_eq_of_lt (by omega)
  have eh : t.hour % 10 ^ 2 = t.hour := Nat.mod_eq_of_lt (by omega)
  have emi : t.minute % 10 ^ 2 = t.minute := Nat.mod_eq_of_lt (by omega)
  have es : t.second % 10 ^ 2 = t.second := Nat.mod_eq_of_lt (by omega)
  have eus : t.microsecond % 10 ^ 6 = t.microsecond := Nat.mod_eq_of_lt (by omega)
  show parseIsoChars (isoChars t) = some t
  by_cases hz : t.microsecond = 0
  · rw [isoChars, if_pos hz]
    simp only [parseIsoChars, Option.bind_eq_bind, List.cons_append, List.append_assoc,
      List.nil_append, readFixed_digChars, Option.some_bind, zero_mul, Nat.zero_add,
      ey, emo, ed, eh, emi, es, expectChar_self, parseFrac_plus, expectOffset]
    rw [← hz]
    rfl
  · rw [isoChars, if_neg hz]
    simp only [parseIsoChars, Option.bind_eq_bind, List.cons_append, List.append_assoc,
      List.nil_append, readFixed_digChars, Option.some_bind, zero_mul, Nat.zero_add,
      ey, emo, ed, eh, emi, es, eus, expectChar_self, parseFrac_dot, expectOffset]
    rfl

/-! ### MongoDB binary string comparison, and monotonicity of `isoformat` -/

/-- Codepoint-wise lexicographic three-way comparison: MongoDB's default
(simple binary collation) comparison of the ASCII strings at hand. -/
def mongoCmp : List Char → List Char → Ordering
  | [], [] => .eq
  | [], _ :: _ => .lt
  | _ :: _, [] => .gt
  | a :: as, b :: bs =>
      if a.toNat < b.toNat then .lt
      else if b.toNat < a.toNat then .gt
      else mongoCmp as bs

/-- Strict "less than" on strings under MongoDB's comparison. -/
def mongoStrLt (s1 s2 : String) : Bool :=
  mongoCmp s1.data s2.data == Ordering.lt

theorem mongoCmp_cons_same (c : Char) (as bs : List Char) :
    mongoCmp (c :: as) (c :: bs) = mongoCmp as bs := by
  simp [mongoCmp]

theorem mongoCmp_asymm : ∀ x y, mongoCmp x y = .lt → mongoCmp y x = .gt := by
  intro x
  induction x with
  | nil =>
      intro y h
      cases y with
      | nil => simp [mongoCmp] at h
      | cons b bs => simp [mongoCmp]
  | cons a as ih =>
      intro y h
      cases y with
      | nil => simp [mongoCmp] at h
      | cons b bs =>
          simp only [mongoCmp] at h ⊢
          by_cases h1 : a.toNat < b.toNat
          · have h2 : ¬ b.toNat < a.toNat := by omega
            simp [h1, h2]
          · by_cases h2 : b.toNat < a.toNat
            · simp [h1, h2] at h
            · simp only [h1, h2, if_false] at h ⊢
              exact ih _ h

theorem mongoCmp_not_lt_trans :
    ∀ x y z, mongoCmp x y ≠ .lt → mongoCmp y z ≠ .lt → mongoCmp x z ≠ .lt := by
  intro x
  induction x with
  | nil =>
      intro y z hxy hyz
      cases y with
      | cons b bs => simp [mongoCmp] at hxy
      | nil =>
          cases z with
          | cons c cs => simp [mongoCmp] at hyz
          | nil => simp [mongoCmp]
  | cons a as ih =>
      intro y z hxy hyz
      cases y with
      | nil =>
          cases z with
          | nil => simp [mongoCmp]
          | cons c cs => simp [mongoCmp] at hyz
      | cons b bs =>
          cases z with
          | nil => simp [mongoCmp]
          | cons c cs =>
              simp only [mongoCmp] at hxy hyz ⊢
              by_cases hab : a.toNat < b.toNat
              · simp [hab] at hxy
              · by_cases hba : b.toNat < a.toNat
                · by_cases hbc : b.toNat < c.toNat
                  · simp [hbc] at hyz
                  · have hac : ¬ a.toNat < c.toNat := by omega
                    have hca : c.toNat < a.toNat := by omega
                    simp [hac, hca]
                · by_cases hbc : b.toNat < c.toNat
                  · simp [hbc] at hyz
                  · by_cases hcb : c.toNat < b.toNat
                    · have hac : ¬ a.toNat < c.toNat := by omega
                      have hca : c.toNat < a.toNat := by omega
                      simp [hac, hca]
                    · have hac : ¬ a.toNat < c.toNat := by omega
                      have hca : ¬ c.toNat < a.toNat := by omega
                      simp only [hab, hba, if_false] at hxy
                      simp only [hbc, hcb, if_false] at hyz
                      simp only [hac, hca, if_false]
                      exact ih bs cs hxy hyz

theorem digChars_cons (w n : Nat) :
    digChars (w + 1) n = Nat.digitChar (n / 10 ^ w % 10) :: digChars w n := by
  simp [digChars, digitsBE]

theorem digChars_mod (w m : Nat) : digChars w (m % 10 ^ w) = digChars w m := by
  unfold digChars
  rw [digitsBE_congr w (m % 10 ^ w) m (Nat.mod_mod_of_dvd m dvd_rfl)]

theorem mongoCmp_digChars :
    ∀ w m n as bs, m < 10 ^ w → n < 10 ^ w →
      mongoCmp (digChars w m ++ as) (digChars w n ++ bs) =
        if m < n then .lt else if n < m then .gt else mongoCmp as bs := by
  intro w
  induction w with
  | zero =>
      intro m n as bs hm hn
      have hm0 : m = 0 := by omega
      have hn0 : n = 0 := by omega
      subst hm0; subst hn0
      simp [digChars, digitsBE]
  | succ w ih =>
      intro m n as bs hm hn
      have hPow : (0 : Nat) < 10 ^ w := Nat.pos_pow_of_pos w (by norm_num)
      have hdm : m / 10 ^ w % 10 = m / 10 ^ w := by
        have hlt10 : m / 10 ^ w < 10 :=
          Nat.div_lt_of_lt_mul (by rw [← pow_succ]; exact hm)
        exact Nat.mod_eq_of_lt hlt10
      have hdn : n / 10 ^ w % 10 = n / 10 ^ w := by
        have hlt10 : n / 10 ^ w < 10 :=
          Nat.div_lt_of_lt_mul (by rw [← pow_succ]; exact hn)
        exact Nat.mod_eq_of_lt hlt10
      have hmd := Nat.div_add_mod m (10 ^ w)
      have hnd := Nat.div_add_mod n (10 ^ w)
      have hmr : m % 10 ^ w < 10 ^ w := Nat.mod_lt _ hPow
      have hnr : n % 10 ^ w < 10 ^ w := Nat.mod_lt _ hPow
      rw [digChars_cons, digChars_cons, List.cons_append, List.cons_append]
      have hddm : (Nat.digitChar (m / 10 ^ w % 10)).toNat = m / 10 ^ w % 10 + 48 :=
        digitChar_toNat (Nat.mod_lt _ (by norm_num))
      have hddn : (Nat.digitChar (n / 10 ^ w % 10)).toNat = n / 10 ^ w % 10 + 48 :=
        digitChar_toNat (Nat.mod_lt _ (by norm_num))
      rcases Nat.lt_trichotomy (m / 10 ^ w) (n / 10 ^ w) with hlt | heq | hgt
      · have hmn : m < n := by
          have e1 : 10 ^ w * (m / 10 ^ w) + 10 ^ w ≤ 10 ^ w * (n / 10 ^ w) := by
            have := Nat.mul_le_mul_left (10 ^ w) (Nat.succ_le_of_lt hlt)
            rw [Nat.mul_succ] at this
            omega
          omega
        have hc : (Nat.digitChar (m / 10 ^ w % 10)).toNat <
            (Nat.digitChar (n / 10 ^ w % 10)).toNat := by
          rw [hddm, hddn, hdm, hdn]; omega
        simp only [mongoCmp, hc, if_pos, hmn]
      · have hc1 : ¬ (Nat.digitChar (m / 10 ^ w % 10)).toNat <
            (Nat.digitChar (n / 10 ^ w % 10)).toNat := by
          rw [hddm, hddn, hdm, hdn, heq]; omega
        have hc2 : ¬ (Nat.digitChar (n / 10 ^ w % 10)).toNat <
            (Nat.digitChar (m / 10 ^ w % 10)).toNat := by
          rw [hddm, hddn, hdm, hdn, heq]; omega
        simp only [mongoCmp, hc1, hc2, if_false]
        rw [← digChars_mod w m, ← digChars_mod w n,
          ih (m % 10 ^ w) (n % 10 ^ w) as bs hmr hnr]
        have heq2 : 10 ^ w * (m / 10 ^ w) = 10 ^ w * (n / 10 ^ w) := by rw [heq]
        have hiff1 : m < n ↔ m % 10 ^ w < n % 10 ^ w := by
          constructor <;> intro <;> omega
        have hiff2 : n < m ↔ n % 10 ^ w < m % 10 ^ w := by
          constructor <;> intro <;> omega
        rcases Nat.lt_trichotomy m n with h | h | h
        · rw [if_pos h, if_pos (hiff1.mp h)]
        · subst h
          simp
        · rw [if_neg (by omega), if_neg (hiff1.not.mpr (by omega)),
            if_pos h, if_pos (hiff2.mp h)]
      · have hmn : n < m := by
          have e1 : 10 ^ w * (n / 10 ^ w) + 10 ^ w ≤ 10 ^ w * (m / 10 ^ w) := by
            have := Nat.mul_le_mul_left (10 ^ w) (Nat.succ_le_of_lt hgt)
            rw [Nat.mul_succ] at this
            omega
          omega
        have hc1 : ¬ (Nat.digitChar (m / 10 ^ w % 10)).toNat <
            (Nat.digitChar (n / 10 ^ w % 10)).toNat := by
          rw [hddm, hddn, hdm, hdn]; omega
        have hc2 : (Nat.digitChar (n / 10 ^ w % 10)).toNat <
            (Nat.digitChar (m / 10 ^ w % 10)).toNat := by
          rw [hddm, hddn, hdm, hdn]; omega
        simp only [mongoCmp, hc1, hc2, if_false, if_pos]
        rw [if_neg (by omega), if_pos hmn]

/-- Chronological strict order on aware UTC datetimes: lexicographic on
(year, month, day, hour, minute, second, microsecond). -/
def dtLt (a b : PyDatetime) : Prop :=
  a.year < b.year ∨ (a.year = b.year ∧ (a.month < b.month ∨ (a.month = b.month ∧
    (a.day < b.day ∨ (a.day = b.day ∧ (a.hour < b.hour ∨ (a.hour = b.hour ∧
      (a.minute < b.minute ∨ (a.minute = b.minute ∧ (a.second < b.second ∨
        (a.second = b.second ∧ a.microsecond < b.microsecond)))))))))))

instance (a b : PyDatetime) : Decidable (dtLt a b) := by
  unfold dtLt; infer_instance

/-- Chronologically earlier datetimes have `isoformat` strings that are
strictly smaller under MongoDB's binary string comparison; in particular
the fractional part being omitted when `microsecond = 0` does not break
the correspondence, because the offset `+` sign sorts below `.`. -/
theorem mongoCmp_isoChars_lt (t1 t2 : PyDatetime)
    (h1 : validDt t1) (h2 : validDt t2) (hlt : dtLt t1 t2) :
    mongoCmp (isoChars t1) (isoChars t2) = .lt := by
  obtain ⟨a1, b1, c1, d1, e1, f1, g1, i1, j1⟩ := h1
  obtain ⟨a2, b2, c2, d2, e2, f2, g2, i2, j2⟩ := h2
  rw [isoChars, isoChars]
  simp only [List.append_assoc, List.cons_append]
  rw [mongoCmp_digChars 4 _ _ _ _ (by omega) (by omega)]
  rcases hlt with hy | ⟨hy, hlt⟩
  · rw [if_pos hy]
  rw [if_neg (by omega), if_neg (by omega), mongoCmp_cons_same]
  rw [mongoCmp_digChars 2 _ _ _ _ (by omega) (by omega)]
  rcases hlt with hmo | ⟨hmo, hlt⟩
  · rw [if_pos hmo]
  rw [if_neg (by omega), if_neg (by omega), mongoCmp_cons_same]
  rw [mongoCmp_digChars 2 _ _ _ _ (by omega) (by omega)]
  rcases hlt with hd | ⟨hd, hlt⟩
  · rw [if_pos hd]
  rw [if_neg (by omega), if_neg (by omega), mongoCmp_cons_same]
  rw [mongoCmp_digChars 2 _ _ _ _ (by omega) (by omega)]
  rcases hlt with hh | ⟨hh, hlt⟩
  · rw [if_pos hh]
  rw [if_neg (by omega), if_neg (by omega), mongoCmp_cons_same]
  rw [mongoCmp_digChars 2 _ _ _ _ (by omega) (by omega)]
  rcases hlt with hmi | ⟨hmi, hlt⟩
  · rw [if_pos hmi]
  rw [if_neg (by omega), if_neg (by omega), mongoCmp_cons_same]
  rw [mongoCmp_digChars 2 _ _ _ _ (by omega) (by omega)]
  rcases hlt with hs | ⟨hs, hus⟩
  · rw [if_pos hs]
  rw [if_neg (by omega), if_neg (by omega)]
  have hz2 : ¬ t2.microsecond = 0 := by omega
  rw [if_neg hz2]
  by_cases hz1 : t1.microsecond = 0
  · rw [if_pos hz1]
    simp [mongoCmp]
  · rw [if_neg hz1, List.cons_append, List.cons_append, mongoCmp_cons_same]
    rw [mongoCmp_digChars 6 _ _ _ _ (by omega) (by omega)]
    rw [if_pos hus]

/-! ### MongoDB `$regex` with `$options: "i"` (modelled fragment) -/

/-- Regex token: a literal character or the `.` wildcard. -/
inductive RTok where
  | lit : Char → RTok
  | anyc : RTok
deriving DecidableEq, Repr

/-- PCRE metacharacters other than `.`: patterns containing these are
outside the modelled fragment of `$regex`. -/
def pcreMeta : List Char :=
  ['\\', '^', '$', '*', '+', '?', '(', ')', '[', ']', Char.ofNat 123, Char.ofNat 125, '|']

/-- Tokenizes a pattern of the modelled fragment (literal characters and
the `.` wildcard); `none` when the pattern uses unmodelled metacharacters. -/
def tokenizeRegex : List Char → Option (List RTok)
  | [] => some []
  | c :: cs =>
      if c ∈ pcreMeta then none
      else (tokenizeRegex cs).map (fun ts => (if c = '.' then RTok.anyc else RTok.lit c) :: ts)

/-- Match of one token against one subject character; PCRE `.` matches any
character except a newline. -/
def tokMatch : RTok → Char → Bool
  | .lit c, x => c = x
  | .anyc, x => x ≠ '\n'

/-- Match of the token list against a prefix of the subject. -/
def matchToksAt : List RTok → List Char → Bool
  | [], _ => true
  | _ :: _, [] => false
  | t :: ts, c :: cs => tokMatch t c && matchToksAt ts cs

/-- Unanchored regex search: match at some position of the subject. -/
def searchToks (ts : List RTok) : List Char → Bool
  | [] => matchToksAt ts []
  | c :: cs => matchToksAt ts (c :: cs) || searchToks ts cs

/-- ASCII lowercasing of a character list; PCRE case folding under
`$options: "i"` is modelled by lowercasing pattern and subject alike. -/
def lowerL (cs : List Char) : List Char := cs.map Char.toLower

/-- MongoDB `{"$regex": pat, "$options": "i"}` applied to a string field,
for patterns in the modelled fragment. -/
def mongoRegexSearchI (pat subject : String) : Bool :=
  match tokenizeRegex (lowerL pat.data) with
  | some ts => searchToks ts (lowerL subject.data)
  | none => false

/-- Case-insensitive substring containment: the specification's reading of
the `search_term` filter ("contains the term, case-insensitively"). -/
def containsCI (term s : String) : Prop :=
  lowerL term.data <:+: lowerL s.data

instance (term s : String) : Decidable (containsCI term s) := by
  unfold containsCI; exact List.decidableInfix _ _

/-! ### Python `str.split(",")` and `str.strip()` -/

/-- Python `s.split(",")` on character lists (`"".split(",") == [""]`). -/
def pySplitComma : List Char → List (List Char)
  | [] => [[]]
  | c :: cs =>
      if c = ',' then [] :: pySplitComma cs
      else
        match pySplitComma cs with
        | r :: rs => (c :: r) :: rs
        | [] => [[c]]

/-- Python `str.strip()` whitespace (ASCII part). -/
def pyIsSpace (c : Char) : Bool :=
  c = ' ' || c = '\t' || c = '\n' || c = '\r' || c = Char.ofNat 11 || c = Char.ofNat 12

/-- Python `s.strip()`: drops leading and trailing whitespace. -/
def pyStrip (cs : List Char) : List Char :=
  ((cs.dropWhile pyIsSpace).reverse.dropWhile pyIsSpace).reverse

/-- `[t.strip() for t in tags.split(",")]` from `get_saved_profiles`. -/
def pyTagList (tags : String) : List String :=
  (pySplitComma tags.data).map (fun cs => String.mk (pyStrip cs))

/-! ### Data model of `server.py` -/

/-- FastAPI `HTTPException`: a status code and a detail message. -/
structure HTTPError where
  status : Nat
  detail : String
deriving DecidableEq, Repr

/-- Pydantic model `LinkedInProfileCreate` (the save-request body). -/
structure LinkedInProfileCreate where
  title : String
  link : String
  snippet : String
  thumbnail : Option String := none
  tags : Option (List String) := none
deriving DecidableEq, Repr

/-- Pydantic model `LinkedInProfile` (the response object; `saved_at` is a
datetime). -/
structure LinkedInProfile where
  id : String
  title : String
  link : String
  snippet : String
  thumbnail : Option String
  saved_at : PyDatetime
  tags : List String
deriving DecidableEq, Repr

/-- A document of the `db.profiles` Mongo collection as `save_profile`
stores it: same fields, with `saved_at` serialized to an ISO string. -/
structure StoredDoc where
  id : String
  title : String
  link : String
  snippet : String
  thumbnail : Option String
  saved_at : String
  tags : List String
deriving DecidableEq, Repr

/-! ### `POST /api/profiles` (`save_profile`) -/

/-- Handler `save_profile`: the duplicate-`link` existence check, tag
defaulting, object construction and insert.  The generated UUID and the
`datetime.now(timezone.utc)` value are explicit parameters; the updated
collection is returned alongside the HTTP result.  The handler's
`except HTTPException: raise` clause re-raises the 400 conflict unchanged. -/
def save_profile (db : List StoredDoc) (profile : LinkedInProfileCreate)
    (freshId : String) (now : PyDatetime) :
    Except HTTPError LinkedInProfile × List StoredDoc :=
  if db.any (fun d => d.link == profile.link) then
    (.error ⟨400, "Profile already saved"⟩, db)
  else
    let tags := profile.tags.getD []
    let profile_obj : LinkedInProfile :=
      ⟨freshId, profile.title, profile.link, profile.snippet, profile.thumbnail, now, tags⟩
    let doc : StoredDoc :=
      ⟨freshId, profile.title, profile.link, profile.snippet, profile.thumbnail,
        isoformat now, tags⟩
    (.ok profile_obj, db ++ [doc])

/-! ### `GET /api/profiles` (`get_saved_profiles`) -/

/-- The Mongo query document built by `get_saved_profiles`: an optional
case-insensitive `$regex` `$or` clause over title and snippet, and an
optional `$in` clause over tags.  `if search_term:` / `if tags:` are
Python truthiness tests, false for `None` and for the empty string. -/
structure ProfilesQuery where
  orRegex : Option String
  tagsIn : Option (List String)
deriving DecidableEq, Repr

/-- Query construction of `get_saved_profiles` (lines 170-181). -/
def buildProfilesQuery (search_term tags : Option String) : ProfilesQuery :=
  { orRegex :=
      match search_term with
      | some s => if s.isEmpty then none else some s
      | none => none
    tagsIn :=
      match tags with
      | some t => if t.isEmpty then none else some (pyTagList t)
      | none => none }

/-- MongoDB evaluation of the query document against a stored document:
`$or` of `$regex` matches on `title`/`snippet`, and `$in` on the `tags`
array (true when some array element is in the given list). -/
def evalProfilesQuery (q : ProfilesQuery) (d : StoredDoc) : Bool :=
  (match q.orRegex with
    | none => true
    | some term => mongoRegexSearchI term d.title || mongoRegexSearchI term d.snippet) &&
  (match q.tagsIn with
    | none => true
    | some l => d.tags.any (fun tg => l.contains tg))

/-- Mongo `sort("saved_at", -1)`: descending by the stored ISO string
under binary string comparison. -/
def sortBySavedAtDesc (docs : List StoredDoc) : List StoredDoc :=
  docs.insertionSort (fun a b => mongoStrLt a.saved_at b.saved_at = false)

/-- The response-model conversion of one document: `saved_at` is parsed
back from its ISO string (`datetime.fromisoformat`), failures raise. -/
def deserializeDoc (d : StoredDoc) : Option LinkedInProfile :=
  match parseIso d.saved_at with
  | some dt => some ⟨d.id, d.title, d.link, d.snippet, d.thumbnail, dt, d.tags⟩
  | none => none

/-- The conversion loop over the fetched documents; any failure raises,
surfacing as the handler's 500. -/
def deserializeAll : List StoredDoc → Option (List LinkedInProfile)
  | [] => some []
  | d :: ds =>
      match deserializeDoc d, deserializeAll ds with
      | some p, some ps => some (p :: ps)
      | _, _ => none

/-- Handler `get_saved_profiles`: build the query, fetch the matching
documents sorted by `saved_at` descending capped at 1000 (`to_list(1000)`),
and convert timestamps back to datetimes. -/
def get_saved_profiles (db : List StoredDoc) (search_term tags : Option String) :
    Except HTTPError (List LinkedInProfile) :=
  let q := buildProfilesQuery search_term tags
  let docs := (sortBySavedAtDesc (db.filter (evalProfilesQuery q))).take 1000
  match deserializeAll docs with
  | some ps => .ok ps
  | none => .error ⟨500, "Invalid isoformat string"⟩

/-! ### `DELETE /api/profiles/{id}` and `PUT /api/profiles/{id}/tags` -/

/-- Mongo `delete_one({"id": pid})`: removes the first matching document;
`none` when `deleted_count` would be 0. -/
def deleteOneById : List StoredDoc → String → Option (List StoredDoc)
  | [], _ => none
  | d :: ds, pid =>
      if d.id = pid then some ds else (deleteOneById ds pid).map (d :: ·)

/-- Handler `delete_profile`: 404 when nothing was deleted. -/
def delete_profile (db : List StoredDoc) (profile_id : String) :
    Except HTTPError String × List StoredDoc :=
  match deleteOneById db profile_id with
  | none => (.error ⟨404, "Profile not found"⟩, db)
  | some db2 => (.ok "Profile deleted successfully", db2)

/-- Mongo `update_one({"id": pid}, {"$set": {"tags": tags}})`: replaces the
`tags` field of the first matching document; `none` when `matched_count`
would be 0. -/
def updateOneTags : List StoredDoc → String → List String → Option (List StoredDoc)
  | [], _, _ => none
  | d :: ds, pid, tgs =>
      if d.id = pid then some ({ d with tags := tgs } :: ds)
      else (updateOneTags ds pid tgs).map (d :: ·)

/-- Handler `update_profile_tags`: 404 when nothing matched. -/
def update_profile_tags (db : List StoredDoc) (profile_id : String) (tags : List String) :
    Except HTTPError String × List StoredDoc :=
  match updateOneTags db profile_id tags with
  | none => (.error ⟨404, "Profile not found"⟩, db)
  | some db2 => (.ok "Tags updated successfully", db2)

/-! ### `POST /api/search` (`search_linkedin_profiles`) -/

/-- The raw JSON body of a search request: each Pydantic field either
present or absent. -/
structure RawSearchBody where
  keywords : Option String := none
  location : Option String := none
  job_title : Option String := none
  company : Option String := none
  start_index : Option Int := none
deriving DecidableEq, Repr

/-- Pydantic model `SearchRequest`: `keywords: str` (required, any string),
three optional strings, `start_index: int = 1`. -/
structure SearchRequest where
  keywords : String
  location : Option String
  job_title : Option String
  company : Option String
  start_index : Int
deriving DecidableEq, Repr

/-- FastAPI/Pydantic request validation for `SearchRequest`: a missing
required field yields a 422 response before the handler runs; a present
`keywords` of any value (including the empty string) passes. -/
def validateSearchRequest (raw : RawSearchBody) : Except Nat SearchRequest :=
  match raw.keywords with
  | none => .error 422
  | some kw => .ok ⟨kw, raw.location, raw.job_title, raw.company, raw.start_index.getD 1⟩

/-- `pagemap.cse_thumbnail[0]` of a Google result item, when present. -/
structure CseThumbnail where
  src : Option String := none
deriving DecidableEq, Repr

/-- One item of the provider's `items` array. -/
structure GoogleItem where
  title : Option String := none
  link : Option String := none
  snippet : Option String := none
  cse_thumbnail : Option CseThumbnail := none
deriving DecidableEq, Repr

/-- The provider's `searchInformation` object, when present. -/
structure SearchInformation where
  totalResults : Option String := none
  searchTime : Option Nat := none
deriving DecidableEq, Repr

/-- The provider's JSON response together with its HTTP status. -/
structure ProviderResponse where
  status : Nat
  items : Option (List GoogleItem) := none
  searchInformation : Option SearchInformation := none
deriving DecidableEq, Repr

/-- The query parameters of the single outbound request (the credential
parameters come from the environment and carry no logic). -/
structure SearchParams where
  q : String
  start : Int
  num : Nat
deriving DecidableEq, Repr

/-- One reshaped search result. -/
structure SearchResultItem where
  title : String
  link : String
  snippet : String
  thumbnail : Option String
deriving DecidableEq, Repr

/-- The handler's success payload. -/
structure SearchResponse where
  results : List SearchResultItem
  total_results : String
  search_time : Nat
deriving DecidableEq, Repr

/-- `if request.location:` (Python truthiness): appended only when present
and nonempty. -/
def optQueryPart : Option String → List String
  | none => []
  | some s => if s.isEmpty then [] else [s]

/-- Query construction of `search_linkedin_profiles` (lines 83-92). -/
def buildSearchQuery (req : SearchRequest) : String :=
  String.intercalate " "
    ([req.keywords] ++ optQueryPart req.location ++ optQueryPart req.job_title ++
      optQueryPart req.company) ++ " site:linkedin.com/in"

/-- Result extraction for one item (lines 114-121). -/
def parseSearchItem (it : GoogleItem) : SearchResultItem :=
  { title := it.title.getD ""
    link := it.link.getD ""
    snippet := it.snippet.getD ""
    thumbnail :=
      match it.cse_thumbnail with
      | some tb => tb.src
      | none => none }

/-- The `try:` block of the handler after the outbound call returned:
raises `HTTPException(response.status_code, "Search API error")` on a
non-200 status, otherwise builds the success payload (lines 106-127). -/
def searchTryBlock (resp : ProviderResponse) : Except HTTPError SearchResponse :=
  if resp.status ≠ 200 then .error ⟨resp.status, "Search API error"⟩
  else
    .ok { results := (resp.items.getD []).map parseSearchItem
          total_results :=
            match resp.searchInformation with
            | some si => si.totalResults.getD "0"
            | none => "0"
          search_time :=
            match resp.searchInformation with
            | some si => si.searchTime.getD 0
            | none => 0 }

/-- Python `str(e)` of a Starlette `HTTPException`. -/
def excStr (e : HTTPError) : String := toString e.status ++ ": " ++ e.detail

/-- Outcome of a `POST /api/search` call: the HTTP result, and whether the
outbound request to the provider was issued. -/
structure SearchOutcome where
  result : Except HTTPError SearchResponse
  providerCalled : Bool
deriving Repr

/-- Handler `search_linkedin_profiles`, preceded by request validation.
Unlike every other handler, its `try:` has no `except HTTPException:
raise` clause, so the `HTTPException` raised for a non-200 provider
status is itself caught by the blanket `except Exception` (line 129) and
re-raised as a 500 with `str(e)` as detail. -/
def search_linkedin_profiles (raw : RawSearchBody)
    (provider : SearchParams → ProviderResponse) : SearchOutcome :=
  match validateSearchRequest raw with
  | .error code => { result := .error ⟨code, "field required"⟩, providerCalled := false }
  | .ok req =>
      let resp := provider ⟨buildSearchQuery req, req.start_index, 10⟩
      match searchTryBlock resp with
      | .ok payload => { result := .ok payload, providerCalled := true }
      | .error e => { result := .error ⟨500, excStr e⟩, providerCalled := true }

/-! ### Store-level helpers and fixtures -/

/-- The multiset of `link` values of the stored profiles. -/
def storeLinks (db : List StoredDoc) : List String := db.map (fun d => d.link)

/-- The multiset of `id` values of the stored profiles. -/
def storeIds (db : List StoredDoc) : List String := db.map (fun d => d.id)

def dtA : PyDatetime := ⟨2024, 5, 17, 12, 30, 45, 123456⟩
def dtB : PyDatetime := ⟨2024, 5, 18, 9, 0, 0, 0⟩
def dtC : PyDatetime := ⟨2024, 5, 18, 9, 0, 0, 500000⟩

def docA : StoredDoc :=
  ⟨"id-a", "Jane Doe - Software Engineer", "https://linkedin.com/in/jane",
    "Engineer at Acme", none, isoformat dtA, ["eng"]⟩

def docB : StoredDoc :=
  ⟨"id-b", "John Roe - Designer", "https://linkedin.com/in/john",
    "Designer at Acme", some "https://img/j.png", isoformat dtB, ["design", "acme"]⟩

def docC : StoredDoc :=
  ⟨"id-c", "Ada L - Analyst", "https://linkedin.com/in/ada",
    "Analyst", none, isoformat dtC, []⟩

def createB : LinkedInProfileCreate :=
  { title := "Jane D", link := "https://linkedin.com/in/jane", snippet := "Dev" }

def createNew : LinkedInProfileCreate :=
  { title := "Grace H", link := "https://linkedin.com/in/grace", snippet := "Admiral" }

/-! ### C1 -/

/-- C1: a save whose `link` equals the link of an already-stored profile
fails with HTTP 400 and leaves the store unchanged, whatever the other
fields are; consequently uniqueness of `link` across the store is
preserved by every save. -/
theorem C1_duplicate_link_rejected (db : List StoredDoc) (p : LinkedInProfileCreate)
    (freshId : String) (now : PyDatetime) :
    ((∃ d ∈ db, d.link = p.link) →
      save_profile db p freshId now = (.error ⟨400, "Profile already saved"⟩, db)) ∧
    ((storeLinks db).Nodup → (storeLinks (save_profile db p freshId now).2).Nodup) := by
  constructor
  · rintro ⟨d, hd, hlink⟩
    have hany : db.any (fun d => d.link == p.link) = true :=
      List.any_eq_true.mpr ⟨d, hd, by simp [hlink]⟩
    simp [save_profile, hany]
  · intro hnodup
    by_cases hany : db.any (fun d => d.link == p.link) = true
    · simp [save_profile, hany, hnodup]
    · have hno : ∀ d ∈ db, ¬ d.link = p.link := by
        intro d hd heq
        exact hany (List.any_eq_true.mpr ⟨d, hd, by simp [heq]⟩)
      rw [Bool.not_eq_true] at hany
      simp only [save_profile, hany, Bool.false_eq_true, if_false]
      rw [storeLinks, List.map_append, List.nodup_append]
      refine ⟨hnodup, by simp, ?_⟩
      intro a ha hb
      simp only [List.map_cons, List.map_nil, List.mem_singleton] at hb
      obtain ⟨d, hd, hda⟩ := List.mem_map.mp ha
      exact hno d hd (by rw [hda, hb])

/-- C1 witness: a concrete duplicate-link save is rejected with 400 and
the one-document store is unchanged. -/
theorem C1_duplicate_link_rejected_witness :
    (∃ d ∈ [docA], d.link = createB.link) ∧
      save_profile [docA] createB "id-b" dtB =
        (.error ⟨400, "Profile already saved"⟩, [docA]) :=
  ⟨⟨docA, by simp, rfl⟩,
    (C1_duplicate_link_rejected [docA] createB "id-b" dtB).1 ⟨docA, by simp, rfl⟩⟩

/-! ### C4 -/

/-- C4: a save whose `link` is not yet stored succeeds, and the returned
profile carries the supplied fresh id, the creation timestamp, the
request's `title`, `link`, `snippet` and `thumbnail`, and an empty tag
list when the request supplied none. -/
theorem C4_save_new_link_succeeds (db : List StoredDoc) (p : LinkedInProfileCreate)
    (freshId : String) (now : PyDatetime)
    (hnew : ∀ d ∈ db, ¬ d.link = p.link) :
    ∃ prof, (save_profile db p freshId now).1 = .ok prof ∧
      prof.id = freshId ∧ prof.saved_at = now ∧
      prof.title = p.title ∧ prof.link = p.link ∧ prof.snippet = p.snippet ∧
      prof.thumbnail = p.thumbnail ∧ (p.tags = none → prof.tags = []) := by
  have hany : db.any (fun d => d.link == p.link) = false := by
    rw [← Bool.not_eq_true, List.any_eq_true]
    rintro ⟨d, hd, hdl⟩
    exact hnew d hd (by simpa using hdl)
  refine ⟨⟨freshId, p.title, p.link, p.snippet, p.thumbnail, now, p.tags.getD []⟩, ?_,
    rfl, rfl, rfl, rfl, rfl, rfl, ?_⟩
  · simp [save_profile, hany]
  · intro hnone; rw [hnone]; rfl

/-- C4 witness: saving a concrete new-link profile with no tags into a
one-document store returns exactly the expected profile object. -/
theorem C4_save_new_link_succeeds_witness :
    (∀ d ∈ [docA], ¬ d.link = createNew.link) ∧
      ∃ prof, (save_profile [docA] createNew "id-n" dtB).1 = .ok prof ∧
        prof.id = "id-n" ∧ prof.saved_at = dtB ∧
        prof.title = createNew.title ∧ prof.link = createNew.link ∧
        prof.snippet = createNew.snippet ∧ prof.thumbnail = createNew.thumbnail ∧
        (createNew.tags = none → prof.tags = []) :=
  ⟨by decide,
    C4_save_new_link_succeeds [docA] createNew "id-n" dtB (by decide)⟩

/-! ### C2 -/

def providerOkEmpty : SearchParams → ProviderResponse := fun _ => { status := 200 }

/-- C2 counterexample: with `keywords` present but equal to the empty
string, validation passes, the outbound provider request is issued, and
the call succeeds (HTTP 200), contradicting the claimed 422-without-call. -/
theorem C2_empty_keywords_accepted_counterexample :
    (search_linkedin_profiles { keywords := some "" } providerOkEmpty).providerCalled = true ∧
      (search_linkedin_profiles { keywords := some "" } providerOkEmpty).result =
        .ok ⟨[], "0", 0⟩ :=
  ⟨rfl, rfl⟩

/-- C2 (amended): a search request with `keywords` missing fails with 422
before any outbound call; a request with `keywords` present — even the
empty string — passes validation and the outbound request is made. -/
theorem C2_missing_keywords_422_before_call (lo jt co : Option String) (si : Option Int)
    (provider : SearchParams → ProviderResponse) :
    (search_linkedin_profiles ⟨none, lo, jt, co, si⟩ provider).providerCalled = false ∧
    (search_linkedin_profiles ⟨none, lo, jt, co, si⟩ provider).result =
      .error ⟨422, "field required"⟩ ∧
    (∀ kw : String,
      (search_linkedin_profiles ⟨some kw, lo, jt, co, si⟩ provider).providerCalled = true) := by
  refine ⟨rfl, rfl, fun kw => ?_⟩
  simp only [search_linkedin_profiles, validateSearchRequest]
  cases searchTryBlock (provider ⟨buildSearchQuery ⟨kw, lo, jt, co, si.getD 1⟩, si.getD 1, 10⟩) <;>
    rfl

/-! ### C3 -/

def provider503 : SearchParams → ProviderResponse := fun _ => { status := 503 }

/-- C3: when the provider answers a non-200 status (here 503), the code
raises `HTTPException(503)` inside the `try:`, but the handler's blanket
`except Exception` (there is no `except HTTPException: raise` in this
handler, unlike all the others) converts it into a 500 response — the
provider's status is not surfaced, contradicting the claim/spec. -/
theorem C3_upstream_status_converted_to_500 :
    (search_linkedin_profiles { keywords := some "engineer" } provider503).result =
      .error ⟨500, "503: Search API error"⟩ ∧ (500 : Nat) ≠ 503 :=
  ⟨rfl, by decide⟩

/-! ### Membership in listing output -/

theorem deserializeAll_mem :
    ∀ ds l, deserializeAll ds = some l →
      ∀ p ∈ l, ∃ d ∈ ds, deserializeDoc d = some p := by
  intro ds
  induction ds with
  | nil =>
      intro l h p hp
      simp [deserializeAll] at h
      subst h
      simp at hp
  | cons d ds ih =>
      intro l h p hp
      simp only [deserializeAll] at h
      cases hd : deserializeDoc d with
      | none => rw [hd] at h; exact absurd h (by simp)
      | some q =>
          rw [hd] at h
          cases hds : deserializeAll ds with
          | none => rw [hds] at h; exact absurd h (by simp)
          | some qs =>
              rw [hds] at h
              simp only [Option.some.injEq] at h
              subst h
              rcases List.mem_cons.mp hp with hpq | hpqs
              · exact ⟨d, by simp, by rw [hd, hpq]⟩
              · obtain ⟨d', hd', hdes⟩ := ih qs hds p hpqs
                exact ⟨d', by simp [hd'], hdes⟩

theorem get_saved_profiles_mem (db : List StoredDoc) (tq tg : Option String)
    (l : List LinkedInProfile) (h : get_saved_profiles db tq tg = .ok l) :
    ∀ p ∈ l, ∃ d ∈ db.filter (evalProfilesQuery (buildProfilesQuery tq tg)),
      deserializeDoc d = some p := by
  intro p hp
  simp only [get_saved_profiles] at h
  set docs :=
    (sortBySavedAtDesc (db.filter (evalProfilesQuery (buildProfilesQuery tq tg)))).take 1000
    with hdocs
  cases hall : deserializeAll docs with
  | none => rw [hall] at h; exact absurd h (by simp)
  | some ps =>
      rw [hall] at h
      simp only [Except.ok.injEq] at h
      subst h
      obtain ⟨d, hd, hdes⟩ := deserializeAll_mem docs ps hall p hp
      refine ⟨d, ?_, hdes⟩
      have h1 : d ∈ sortBySavedAtDesc (db.filter (evalProfilesQuery (buildProfilesQuery tq tg))) :=
        List.take_subset _ _ (hdocs ▸ hd)
      simpa [sortBySavedAtDesc] using h1

theorem deserializeDoc_id (d : StoredDoc) (p : LinkedInProfile)
    (h : deserializeDoc d = some p) : p.id = d.id ∧ p.tags = d.tags := by
  simp only [deserializeDoc] at h
  cases hpi : parseIso d.saved_at with
  | none => rw [hpi] at h; exact absurd h (by simp)
  | some dt =>
      rw [hpi] at h
      simp only [Option.some.injEq] at h
      subst h
      exact ⟨rfl, rfl⟩

/-! ### C7 -/

theorem updateOneTags_not_found :
    ∀ (db : List StoredDoc) (pid : String) (tgs : List String),
      (∀ d ∈ db, ¬ d.id = pid) → updateOneTags db pid tgs = none := by
  intro db pid tgs h
  induction db with
  | nil => rfl
  | cons d ds ih =>
      simp only [updateOneTags, if_neg (h d (by simp))]
      rw [ih (fun d' hd' => h d' (by simp [hd']))]
      rfl

theorem map_updateTags_id (ds : List StoredDoc) (pid : String) (tgs : List String)
    (h : ∀ d ∈ ds, ¬ d.id = pid) :
    ds.map (fun d => if d.id = pid then { d with tags := tgs } else d) = ds := by
  induction ds with
  | nil => rfl
  | cons d rest ih =>
      simp only [List.map_cons, if_neg (h d (by simp))]
      rw [ih (fun d' hd' => h d' (by simp [hd']))]

theorem updateOneTags_found :
    ∀ (db : List StoredDoc) (pid : String) (tgs : List String),
      (storeIds db).Nodup → ∀ d0 ∈ db, d0.id = pid →
      updateOneTags db pid tgs =
        some (db.map (fun d => if d.id = pid then { d with tags := tgs } else d)) := by
  intro db pid tgs hnd d0 hd0 hid
  induction db with
  | nil => simp at hd0
  | cons d ds ih =>
      rw [storeIds, List.map_cons, List.nodup_cons] at hnd
      by_cases hd : d.id = pid
      · have hrest : ∀ d' ∈ ds, ¬ d'.id = pid := by
          intro d' hd' he
          exact hnd.1 (by rw [← hd, ← he] at *; exact List.mem_map.mpr ⟨d', hd', rfl⟩)
        simp only [updateOneTags, if_pos hd, List.map_cons, if_pos hd,
          map_updateTags_id ds pid tgs hrest]
      · have hd0ds : d0 ∈ ds := by
          rcases List.mem_cons.mp hd0 with he | hm
          · exact absurd (he ▸ hid) hd
          · exact hm
        simp only [updateOneTags, if_neg hd, List.map_cons, if_neg hd]
        rw [ih (by rw [storeIds]; exact hnd.2) hd0ds]
        rfl

/-- C7: with unique ids, updating tags of a stored id succeeds and
replaces that profile's whole tag list, leaving every other field and
every other profile unchanged — so any subsequent listing shows exactly
the new tag list for that id; updating a non-stored id fails with 404 and
changes nothing. -/
theorem C7_update_tags (db : List StoredDoc) (pid : String) (tgs : List String)
    (hnodup : (storeIds db).Nodup) :
    ((∀ d ∈ db, ¬ d.id = pid) →
      update_profile_tags db pid tgs = (.error ⟨404, "Profile not found"⟩, db)) ∧
    (∀ d0 ∈ db, d0.id = pid →
      update_profile_tags db pid tgs =
        (.ok "Tags updated successfully",
          db.map (fun d => if d.id = pid then { d with tags := tgs } else d)) ∧
      (∀ tq tg l,
        get_saved_profiles
            (db.map (fun d => if d.id = pid then { d with tags := tgs } else d)) tq tg =
          .ok l →
        ∀ p ∈ l, p.id = pid → p.tags = tgs)) := by
  constructor
  · intro habs
    simp [update_profile_tags, updateOneTags_not_found db pid tgs habs]
  · intro d0 hd0 hid
    constructor
    · simp [update_profile_tags, updateOneTags_found db pid tgs hnodup d0 hd0 hid]
    · intro tq tg l hl p hp hpid
      obtain ⟨d, hd, hdes⟩ := get_saved_profiles_mem _ tq tg l hl p hp
      have hdmem : d ∈ db.map (fun d => if d.id = pid then { d with tags := tgs } else d) :=
        List.mem_of_mem_filter hd
      obtain ⟨d', _, hmap⟩ := List.mem_map.mp hdmem
      obtain ⟨hpi, hpt⟩ := deserializeDoc_id d p hdes
      by_cases hcase : d'.id = pid
      · rw [if_pos hcase] at hmap
        rw [hpt, ← hmap]
      · rw [if_neg hcase] at hmap
        rw [← hmap] at hpi
        exact absurd (hpid ▸ hpi.symm) hcase

/-- C7 witness: concretely, tags of `docB` are replaced wholesale and the
other document is untouched; a missing id yields 404. -/
theorem C7_update_tags_witness :
    (storeIds [docA, docB]).Nodup ∧
      update_profile_tags [docA, docB] "id-b" ["x"] =
        (.ok "Tags updated successfully", [docA, { docB with tags := ["x"] }]) ∧
      update_profile_tags [docA, docB] "id-z" ["x"] =
        (.error ⟨404, "Profile not found"⟩, [docA, docB]) := by
  refine ⟨by decide, ?_, ?_⟩
  · have h := ((C7_update_tags [docA, docB] "id-b" ["x"] (by decide)).2 docB (by simp) rfl).1
    rw [h]
    rfl
  · exact (C7_update_tags [docA, docB] "id-z" ["x"] (by decide)).1 (by decide)

/-! ### C8 -/

theorem deleteOneById_not_found :
    ∀ (db : List StoredDoc) (pid : String),
      (∀ d ∈ db, ¬ d.id = pid) → deleteOneById db pid = none := by
  intro db pid h
  induction db with
  | nil => rfl
  | cons d ds ih =>
      simp only [deleteOneById, if_neg (h d (by simp))]
      rw [ih (fun d' hd' => h d' (by simp [hd']))]
      rfl

theorem filter_ne_id (ds : List StoredDoc) (pid : String)
    (h : ∀ d ∈ ds, ¬ d.id = pid) :
    ds.filter (fun d => !(d.id == pid)) = ds :=
  List.filter_eq_self.mpr (fun d' hd' => by simp [h d' hd'])

theorem deleteOneById_found :
    ∀ (db : List StoredDoc) (pid : String),
      (storeIds db).Nodup → ∀ d0 ∈ db, d0.id = pid →
      deleteOneById db pid = some (db.filter (fun d => !(d.id == pid))) := by
  intro db pid hnd d0 hd0 hid
  induction db with
  | nil => simp at hd0
  | cons d ds ih =>
      rw [storeIds, List.map_cons, List.nodup_cons] at hnd
      by_cases hd : d.id = pid
      · have hrest : ∀ d' ∈ ds, ¬ d'.id = pid := by
          intro d' hd' he
          exact hnd.1 (by rw [← hd, ← he] at *; exact List.mem_map.mpr ⟨d', hd', rfl⟩)
        simp only [deleteOneById, if_pos hd, List.filter_cons]
        simp only [hd, beq_self_eq_true, Bool.not_true, Bool.false_eq_true, if_false]
        rw [filter_ne_id ds pid hrest]
      · have hd0ds : d0 ∈ ds := by
          rcases List.mem_cons.mp hd0 with he | hm
          · exact absurd (he ▸ hid) hd
          · exact hm
        simp only [deleteOneById, if_neg hd]
        rw [ih (by rw [storeIds]; exact hnd.2) hd0ds]
        simp only [List.filter_cons]
        have hcond : (!(d.id == pid)) = true := by simp [hd]
        rw [hcond, if_pos rfl]
        rfl

/-- C8: with unique ids, deleting a non-stored id fails with 404 and the
store is unchanged; deleting a stored id succeeds, removes exactly that
profile, and it appears in no subsequent listing. -/
theorem C8_delete (db : List StoredDoc) (pid : String)
    (hnodup : (storeIds db).Nodup) :
    ((∀ d ∈ db, ¬ d.id = pid) →
      delete_profile db pid = (.error ⟨404, "Profile not found"⟩, db)) ∧
    (∀ d0 ∈ db, d0.id = pid →
      delete_profile db pid =
        (.ok "Profile deleted successfully", db.filter (fun d => !(d.id == pid))) ∧
      (∀ tq tg l,
        get_saved_profiles (db.filter (fun d => !(d.id == pid))) tq tg = .ok l →
        ∀ p ∈ l, ¬ p.id = pid)) := by
  constructor
  · intro habs
    simp [delete_profile, deleteOneById_not_found db pid habs]
  · intro d0 hd0 hid
    constructor
    · simp [delete_profile, deleteOneById_found db pid hnodup d0 hd0 hid]
    · intro tq tg l hl p hp hpid
      obtain ⟨d, hd, hdes⟩ := get_saved_profiles_mem _ tq tg l hl p hp
      have hdmem : d ∈ db.filter (fun d => !(d.id == pid)) :=
        List.mem_of_mem_filter hd
      have hdid : (!(d.id == pid)) = true := (List.mem_filter.mp hdmem).2
      obtain ⟨hpi, _⟩ := deserializeDoc_id d p hdes
      rw [hpid] at hpi
      simp [← hpi] at hdid

/-- C8 witness: deleting `docA` by id removes exactly it; a missing id
yields 404 with the store unchanged. -/
theorem C8_delete_witness :
    (storeIds [docA, docB]).Nodup ∧
      delete_profile [docA, docB] "id-a" = (.ok "Profile deleted successfully", [docB]) ∧
      delete_profile [docA, docB] "id-z" = (.error ⟨404, "Profile not found"⟩, [docA, docB]) := by
  refine ⟨by decide, ?_, ?_⟩
  · have h := ((C8_delete [docA, docB] "id-a" (by decide)).2 docA (by simp) rfl).1
    rw [h]
    rfl
  · exact (C8_delete [docA, docB] "id-z" (by decide)).1 (by decide)

/-! ### C9 -/

/-- C9: in `get_saved_profiles`, an empty-string `search_term` or `tags`
parameter falls through the Python truthiness checks exactly like an
absent parameter (in particular `tags=""` does not restrict to profiles
carrying an empty-string tag); and a nonempty `tags` parameter acts only
through the stripped comma-split tag list, so surrounding whitespace in
the tag list is irrelevant. -/
theorem C9_empty_params_and_strip (db : List StoredDoc) (tq tg : Option String) :
    get_saved_profiles db (some "") tg = get_saved_profiles db none tg ∧
    get_saved_profiles db tq (some "") = get_saved_profiles db tq none ∧
    (∀ raw raw' : String, raw.isEmpty = false → raw'.isEmpty = false →
      pyTagList raw = pyTagList raw' →
      get_saved_profiles db tq (some raw) = get_saved_profiles db tq (some raw')) := by
  refine ⟨rfl, rfl, fun raw raw' hraw hraw' htl => ?_⟩
  simp only [get_saved_profiles, buildProfilesQuery, hraw, hraw', Bool.false_eq_true,
    if_false, htl]

/-- C9 witness: whitespace-padded tags filter identically to the plain
ones, and concretely `tags=" eng , acme "` behaves like `tags="eng,acme"`;
the two empty-parameter equalities are instantiated on a concrete store. -/
theorem C9_empty_params_and_strip_witness :
    (" eng , acme ").isEmpty = false ∧ ("eng,acme").isEmpty = false ∧
      pyTagList " eng , acme " = pyTagList "eng,acme" ∧
      get_saved_profiles [docA, docB] none (some " eng , acme ") =
        get_saved_profiles [docA, docB] none (some "eng,acme") ∧
      get_saved_profiles [docA, docB] (some "") none =
        get_saved_profiles [docA, docB] none none :=
  ⟨rfl, rfl, by decide,
    (C9_empty_params_and_strip [docA, docB] none (some "x")).2.2
      " eng , acme " "eng,acme" rfl rfl (by decide),
    (C9_empty_params_and_strip [docA, docB] (some "x") none).1⟩

/-! ### C6 -/

theorem mongoStrLt_false_iff (s1 s2 : String) :
    mongoStrLt s1 s2 = false ↔ mongoCmp s1.data s2.data ≠ .lt := by
  cases hcmp : mongoCmp s1.data s2.data <;> simp [mongoStrLt, hcmp] <;> decide

theorem sortBySavedAtDesc_sorted (docs : List StoredDoc) :
    (sortBySavedAtDesc docs).Pairwise
      (fun a b => mongoStrLt a.saved_at b.saved_at = false) := by
  haveI htot : IsTotal StoredDoc (fun a b => mongoStrLt a.saved_at b.saved_at = false) := by
    constructor
    intro a b
    rw [mongoStrLt_false_iff, mongoStrLt_false_iff]
    by_cases h : mongoCmp a.saved_at.data b.saved_at.data = .lt
    · right
      rw [mongoCmp_asymm _ _ h]
      simp
    · left; exact h
  haveI htrans : IsTrans StoredDoc (fun a b => mongoStrLt a.saved_at b.saved_at = false) := by
    constructor
    intro a b c hab hbc
    rw [mongoStrLt_false_iff] at *
    exact mongoCmp_not_lt_trans _ _ _ hab hbc
  exact List.sorted_insertionSort _ docs

theorem sortBySavedAtDesc_perm (docs : List StoredDoc) :
    List.Perm (sortBySavedAtDesc docs) docs :=
  List.perm_insertionSort _ docs

theorem deserializeAll_forall2 :
    ∀ ds l, deserializeAll ds = some l →
      List.Forall₂ (fun d p => deserializeDoc d = some p) ds l := by
  intro ds
  induction ds with
  | nil =>
      intro l h
      simp only [deserializeAll, Option.some.injEq] at h
      subst h
      exact List.Forall₂.nil
  | cons d rest ih =>
      intro l h
      simp only [deserializeAll] at h
      cases hd : deserializeDoc d with
      | none => rw [hd] at h; exact absurd h (by simp)
      | some q =>
          rw [hd] at h
          cases hds : deserializeAll rest with
          | none => rw [hds] at h; exact absurd h (by simp)
          | some qs =>
              rw [hds] at h
              simp only [Option.some.injEq] at h
              subst h
              exact List.Forall₂.cons hd (ih qs hds)

theorem forall2_mem_right {α β : Type} {R : α → β → Prop} :
    ∀ {ds : List α} {l : List β}, List.Forall₂ R ds l → ∀ b ∈ l, ∃ a ∈ ds, R a b := by
  intro ds l hf
  induction hf with
  | nil => intro b hb; simp at hb
  | cons hR hf2 ih =>
      intro b hb
      rcases List.mem_cons.mp hb with rfl | hb
      · exact ⟨_, by simp, hR⟩
      · obtain ⟨a, ha, hra⟩ := ih b hb
        exact ⟨a, by simp [ha], hra⟩

theorem pairwise_of_forall2 {α β : Type} {R : α → β → Prop} {S : α → α → Prop}
    {T : β → β → Prop}
    (hcomp : ∀ a b a' b', R a b → R a' b' → S a a' → T b b') :
    ∀ {ds : List α} {l : List β}, List.Forall₂ R ds l → ds.Pairwise S → l.Pairwise T := by
  intro ds l hf
  induction hf with
  | nil => intro; exact List.Pairwise.nil
  | cons hR hf2 ih =>
      intro hp
      rcases List.pairwise_cons.mp hp with ⟨hhead, htail⟩
      refine List.Pairwise.cons ?_ (ih htail)
      intro b' hb'
      obtain ⟨a', ha', hRa'⟩ := forall2_mem_right hf2 b' hb'
      exact hcomp _ _ _ _ hR hRa' (hhead a' ha')

theorem forall2_and_mem {α β : Type} {R : α → β → Prop} {P : α → Prop} :
    ∀ {ds : List α} {l : List β}, List.Forall₂ R ds l → (∀ a ∈ ds, P a) →
      List.Forall₂ (fun a b => R a b ∧ P a) ds l := by
  intro ds l hf
  induction hf with
  | nil => intro; exact List.Forall₂.nil
  | cons hR hf2 ih =>
      intro hP
      exact List.Forall₂.cons ⟨hR, hP _ (by simp)⟩ (ih (fun a ha => hP a (by simp [ha])))

theorem deserializeAll_isSome :
    ∀ ds : List StoredDoc, (∀ d ∈ ds, (deserializeDoc d).isSome = true) →
      ∃ l, deserializeAll ds = some l := by
  intro ds
  induction ds with
  | nil => intro; exact ⟨[], rfl⟩
  | cons d rest ih =>
      intro h
      obtain ⟨q, hq⟩ := Option.isSome_iff_exists.mp (h d (by simp))
      obtain ⟨qs, hqs⟩ := ih (fun d' hd' => h d' (by simp [hd']))
      exact ⟨q :: qs, by simp [deserializeAll, hq, hqs]⟩

theorem deserializeDoc_saved_at (d : StoredDoc) (p : LinkedInProfile)
    (h : deserializeDoc d = some p) : parseIso d.saved_at = some p.saved_at := by
  simp only [deserializeDoc] at h
  cases hpi : parseIso d.saved_at with
  | none => rw [hpi] at h; exact absurd h (by simp)
  | some dt =>
      rw [hpi] at h
      simp only [Option.some.injEq] at h
      subst h
      rfl

/-- A store whose documents were all produced by `save_profile`: every
stored `saved_at` is the `isoformat` of a valid datetime. -/
def validStore (db : List StoredDoc) : Prop :=
  ∀ d ∈ db, ∃ t, validDt t ∧ d.saved_at = isoformat t

/-- C6: on any store of saved documents, every listing succeeds, is
ordered by `saved_at` descending (no earlier-saved profile precedes a
later-saved one), and returns at most 1000 documents. -/
theorem C6_sorted_desc_and_capped (db : List StoredDoc) (tq tg : Option String)
    (hvalid : validStore db) :
    ∃ l, get_saved_profiles db tq tg = .ok l ∧
      l.Pairwise (fun p q => ¬ dtLt p.saved_at q.saved_at) ∧
      l.length ≤ 1000 := by
  set q := buildProfilesQuery tq tg with hq
  set docs := (sortBySavedAtDesc (db.filter (evalProfilesQuery q))).take 1000 with hdocs
  have hsub : ∀ d ∈ docs, d ∈ db := by
    intro d hd
    have h1 := List.take_subset _ _ hd
    have h2 := (sortBySavedAtDesc_perm _).mem_iff.mp h1
    exact List.mem_of_mem_filter h2
  have hvdocs : ∀ d ∈ docs, ∃ t, validDt t ∧ d.saved_at = isoformat t :=
    fun d hd => hvalid d (hsub d hd)
  have hsome : ∀ d ∈ docs, (deserializeDoc d).isSome = true := by
    intro d hd
    obtain ⟨t, hvt, hiso⟩ := hvdocs d hd
    simp [deserializeDoc, hiso, parseIso_isoformat t hvt]
  obtain ⟨l, hl⟩ := deserializeAll_isSome docs hsome
  refine ⟨l, ?_, ?_, ?_⟩
  · simp only [get_saved_profiles, ← hq, ← hdocs, hl]
  · have hf := forall2_and_mem (deserializeAll_forall2 docs l hl) hvdocs
    have hpw : docs.Pairwise (fun a b => mongoStrLt a.saved_at b.saved_at = false) :=
      (sortBySavedAtDesc_sorted _).sublist (List.take_sublist _ _)
    refine pairwise_of_forall2 ?_ hf hpw
    rintro d p d' p' ⟨hdp, td, hvtd, hisod⟩ ⟨hdp', td', hvtd', hisod'⟩ hS hT
    have hpd : p.saved_at = td := by
      have := deserializeDoc_saved_at d p hdp
      rw [hisod, parseIso_isoformat td hvtd] at this
      exact (Option.some.injEq _ _ ▸ this).symm
    have hpd' : p'.saved_at = td' := by
      have := deserializeDoc_saved_at d' p' hdp'
      rw [hisod', parseIso_isoformat td' hvtd'] at this
      exact (Option.some.injEq _ _ ▸ this).symm
    rw [hpd, hpd'] at hT
    have hcmp := mongoCmp_isoChars_lt td td' hvtd hvtd' hT
    rw [mongoStrLt_false_iff, hisod, hisod'] at hS
    exact hS (by simpa [isoformat] using hcmp)
  · have hlen := (deserializeAll_forall2 docs l hl).length_eq
    rw [← hlen, hdocs]
    exact List.length_take_le 1000 (sortBySavedAtDesc (db.filter (evalProfilesQuery q)))

def profA : LinkedInProfile :=
  ⟨"id-a", "Jane Doe - Software Engineer", "https://linkedin.com/in/jane",
    "Engineer at Acme", none, dtA, ["eng"]⟩

def profB : LinkedInProfile :=
  ⟨"id-b", "John Roe - Designer", "https://linkedin.com/in/john",
    "Designer at Acme", some "https://img/j.png", dtB, ["design", "acme"]⟩

def profC : LinkedInProfile :=
  ⟨"id-c", "Ada L - Analyst", "https://linkedin.com/in/ada",
    "Analyst", none, dtC, []⟩

/-- C6 witness: on a concrete store saved at times T1 < T2 < T3 (T2 and T3
differing only in microseconds, exercising the omitted-fraction case), the
listing comes back exactly as [T3, T2, T1]. -/
theorem C6_sorted_desc_and_capped_witness :
    validStore [docA, docB, docC] ∧
      (∃ l, get_saved_profiles [docA, docB, docC] none none = .ok l ∧
        l.Pairwise (fun p q => ¬ dtLt p.saved_at q.saved_at) ∧ l.length ≤ 1000) ∧
      get_saved_profiles [docA, docB, docC] none none = .ok [profC, profB, profA] := by
  have hv : validStore [docA, docB, docC] := by
    intro d hd
    simp only [List.mem_cons, List.not_mem_nil, or_false] at hd
    rcases hd with rfl | rfl | rfl
    · exact ⟨dtA, by decide, rfl⟩
    · exact ⟨dtB, by decide, rfl⟩
    · exact ⟨dtC, by decide, rfl⟩
  exact ⟨hv, C6_sorted_desc_and_capped [docA, docB, docC] none none hv, rfl⟩

/-! ### C10 -/

/-- C10: `save_profile` serializes the creation timestamp with `isoformat`
into the stored document, `fromisoformat` parses it back to the very same
datetime, and hence any profile with the fresh id returned by a subsequent
listing carries exactly the `saved_at` that the save call returned. -/
theorem C10_saved_at_roundtrip (db : List StoredDoc) (p : LinkedInProfileCreate)
    (freshId : String) (now : PyDatetime)
    (hvdt : validDt now)
    (hnew : ∀ d ∈ db, ¬ d.link = p.link)
    (hid : ∀ d ∈ db, ¬ d.id = freshId) :
    ∃ prof doc, save_profile db p freshId now = (.ok prof, db ++ [doc]) ∧
      prof.saved_at = now ∧
      doc.saved_at = isoformat now ∧
      parseIso doc.saved_at = some now ∧
      (∀ tq tg l, get_saved_profiles (db ++ [doc]) tq tg = .ok l →
        ∀ q ∈ l, q.id = freshId → q.saved_at = now) := by
  have hany : db.any (fun d => d.link == p.link) = false := by
    rw [← Bool.not_eq_true, List.any_eq_true]
    rintro ⟨d, hd, hdl⟩
    exact hnew d hd (by simpa using hdl)
  refine ⟨⟨freshId, p.title, p.link, p.snippet, p.thumbnail, now, p.tags.getD []⟩,
    ⟨freshId, p.title, p.link, p.snippet, p.thumbnail, isoformat now, p.tags.getD []⟩,
    by simp [save_profile, hany], rfl, rfl, parseIso_isoformat now hvdt, ?_⟩
  intro tq tg l hl q hq hqid
  obtain ⟨d, hd, hdes⟩ := get_saved_profiles_mem _ tq tg l hl q hq
  have hdmem := List.mem_of_mem_filter hd
  obtain ⟨hqi, _⟩ := deserializeDoc_id d q hdes
  rcases List.mem_append.mp hdmem with hdb | hdoc
  · exact absurd (hqid ▸ hqi.symm : d.id = freshId) (hid d hdb)
  · have hdd := List.mem_singleton.mp hdoc
    subst hdd
    have := deserializeDoc_saved_at _ q hdes
    rw [show (⟨freshId, p.title, p.link, p.snippet, p.thumbnail, isoformat now,
      p.tags.getD []⟩ : StoredDoc).saved_at = isoformat now from rfl,
      parseIso_isoformat now hvdt] at this
    exact (Option.some.injEq _ _ ▸ this).symm

/-- C10 witness: a concrete save into a one-document store round-trips its
timestamp through the stored ISO string and back out of a listing. -/
theorem C10_saved_at_roundtrip_witness :
    validDt dtB ∧
      ∃ prof doc, save_profile [docA] createNew "id-n" dtB = (.ok prof, [docA] ++ [doc]) ∧
        prof.saved_at = dtB ∧ doc.saved_at = isoformat dtB ∧
        parseIso doc.saved_at = some dtB ∧
        (∀ tq tg l, get_saved_profiles ([docA] ++ [doc]) tq tg = .ok l →
          ∀ q ∈ l, q.id = "id-n" → q.saved_at = dtB) :=
  ⟨by decide,
    C10_saved_at_roundtrip [docA] createNew "id-n" dtB (by decide) (by decide) (by decide)⟩

/-! ### C5 -/

theorem bool_eq_decide {b : Bool} {P : Prop} [Decidable P] (h : b = true ↔ P) :
    b = decide P := by
  cases b with
  | true => simp [h.mp rfl]
  | false =>
      have hnp : ¬ P := fun hp => by simpa using h.mpr hp
      simp [hnp]

theorem tokenizeRegex_lit :
    ∀ cs : List Char, (∀ c ∈ cs, c ∉ pcreMeta ∧ ¬ c = '.') →
      tokenizeRegex cs = some (cs.map RTok.lit) := by
  intro cs h
  induction cs with
  | nil => rfl
  | cons c rest ih =>
      obtain ⟨hm, hdot⟩ := h c (by simp)
      simp only [tokenizeRegex, if_neg hm, hdot,
        ih (fun c' hc' => h c' (by simp [hc'])), Option.map_some, List.map_cons]
      simp

theorem matchToksAt_lit :
    ∀ (p s : List Char), matchToksAt (p.map RTok.lit) s = true ↔ p <+: s := by
  intro p
  induction p with
  | nil => intro s; simp [matchToksAt]
  | cons a p ih =>
      intro s
      cases s with
      | nil => simp [matchToksAt]
      | cons c cs =>
          simp [matchToksAt, tokMatch, ih, List.cons_prefix_cons]

theorem searchToks_lit :
    ∀ (s p : List Char), searchToks (p.map RTok.lit) s = true ↔ p <:+: s := by
  intro s
  induction s with
  | nil => intro p; simp [searchToks, matchToksAt_lit]
  | cons c cs ih =>
      intro p
      rw [List.infix_cons_iff]
      simp [searchToks, matchToksAt_lit, ih]

theorem mongoRegexSearchI_iff (t s : String)
    (h : ∀ c ∈ lowerL t.data, c ∉ pcreMeta ∧ ¬ c = '.') :
    mongoRegexSearchI t s = true ↔ containsCI t s := by
  unfold mongoRegexSearchI containsCI
  rw [tokenizeRegex_lit _ h]
  exact searchToks_lit _ _

/-- The claim's filter predicate, from the specification's words: when
`search_term` is given, title or snippet contains it as a case-insensitive
substring; when `tags` is given, the profile's tag list intersects the
comma-separated (stripped) tag set; both clauses combine with AND and an
absent parameter imposes nothing. -/
def specMatches (tq tg : Option String) (d : StoredDoc) : Prop :=
  (match tq with
    | none => True
    | some t => containsCI t d.title ∨ containsCI t d.snippet) ∧
  (match tg with
    | none => True
    | some ts => ∃ tag, tag ∈ d.tags ∧ tag ∈ pyTagList ts)

/-- Decidability of the `search_term` clause of `specMatches`. -/
def decSpecClauseT (tq : Option String) (d : StoredDoc) :
    Decidable (match tq with
      | none => True
      | some t => containsCI t d.title ∨ containsCI t d.snippet) :=
  match tq with
  | none => isTrue trivial
  | some _ => inferInstanceAs (Decidable (_ ∨ _))

/-- Decidability of the `tags` clause of `specMatches`. -/
def decSpecClauseG (tg : Option String) (d : StoredDoc) :
    Decidable (match tg with
      | none => True
      | some ts => ∃ tag, tag ∈ d.tags ∧ tag ∈ pyTagList ts) :=
  match tg with
  | none => isTrue trivial
  | some _ => inferInstanceAs (Decidable (∃ _, _ ∧ _))

instance (tq tg : Option String) (d : StoredDoc) : Decidable (specMatches tq tg d) :=
  @instDecidableAnd _ _ (decSpecClauseT tq d) (decSpecClauseG tg d)

theorem evalQuery_eq_spec (tq tg : Option String) (d : StoredDoc)
    (htq : ∀ t, tq = some t →
      t.isEmpty = false ∧ ∀ c ∈ lowerL t.data, c ∉ pcreMeta ∧ ¬ c = '.')
    (htg : ∀ ts, tg = some ts → ts.isEmpty = false) :
    evalProfilesQuery (buildProfilesQuery tq tg) d = decide (specMatches tq tg d) := by
  have hsearch : ∀ t, tq = some t →
      (mongoRegexSearchI t d.title || mongoRegexSearchI t d.snippet) =
        decide (containsCI t d.title ∨ containsCI t d.snippet) := by
    intro t ht
    refine bool_eq_decide ?_
    rw [Bool.or_eq_true, mongoRegexSearchI_iff t d.title (htq t ht).2,
      mongoRegexSearchI_iff t d.snippet (htq t ht).2]
  have htags : ∀ ts : String,
      (d.tags.any fun tag => (pyTagList ts).contains tag) =
        decide (∃ tag, tag ∈ d.tags ∧ tag ∈ pyTagList ts) := by
    intro ts
    refine bool_eq_decide ?_
    rw [List.any_eq_true]
    constructor
    · rintro ⟨tag, htag, hc⟩
      exact ⟨tag, htag, by simpa using hc⟩
    · rintro ⟨tag, htag, hc⟩
      exact ⟨tag, htag, by simpa using hc⟩
  rcases tq with _ | t <;> rcases tg with _ | ts
  · simp [evalProfilesQuery, buildProfilesQuery, specMatches]
  · simp only [evalProfilesQuery, buildProfilesQuery, htg ts rfl, Bool.false_eq_true,
      if_false, specMatches, htags ts, Bool.true_and, Bool.decide_and]
    simp
  · simp only [evalProfilesQuery, buildProfilesQuery, (htq t rfl).1, Bool.false_eq_true,
      if_false, specMatches, hsearch t rfl, Bool.and_true, Bool.decide_and]
    simp
  · simp only [evalProfilesQuery, buildProfilesQuery, (htq t rfl).1, htg ts rfl,
      Bool.false_eq_true, if_false, specMatches, hsearch t rfl, htags ts, Bool.decide_and]

/-- Total form of the document-to-response conversion, defined on
documents whose `saved_at` parses (elsewhere it takes a default). -/
def docToProfile (d : StoredDoc) : LinkedInProfile :=
  ⟨d.id, d.title, d.link, d.snippet, d.thumbnail,
    (parseIso d.saved_at).getD ⟨1970, 1, 1, 0, 0, 0, 0⟩, d.tags⟩

theorem docToProfile_of_deserialize (d : StoredDoc) (p : LinkedInProfile)
    (h : deserializeDoc d = some p) : docToProfile d = p := by
  simp only [deserializeDoc] at h
  cases hpi : parseIso d.saved_at with
  | none => rw [hpi] at h; exact absurd h (by simp)
  | some dt =>
      rw [hpi] at h
      simp only [Option.some.injEq] at h
      subst h
      simp [docToProfile, hpi]

theorem forall2_deserialize_map :
    ∀ {ds : List StoredDoc} {l : List LinkedInProfile},
      List.Forall₂ (fun d p => deserializeDoc d = some p) ds l →
      l = ds.map docToProfile := by
  intro ds l hf
  induction hf with
  | nil => rfl
  | cons hR hf2 ih =>
      simp only [List.map_cons]
      rw [docToProfile_of_deserialize _ _ hR, ih]

theorem deserializeAll_eq_map (ds : List StoredDoc) (l : List LinkedInProfile)
    (h : deserializeAll ds = some l) : l = ds.map docToProfile :=
  forall2_deserialize_map (deserializeAll_forall2 ds l h)


/-- C5 (amended): for a store of saved documents with at most 1000 entries
and filter parameters in the modelled regex fragment (no metacharacters;
empty-string parameters are C9's concern), the listing returns exactly —
as a permutation, since the output is reordered by `saved_at` — the
profiles satisfying the conjunction of the two clauses: title or snippet
contains `search_term` case-insensitively, and the tag list meets the
comma-separated (stripped) tag set. -/
theorem C5_filter_semantics (db : List StoredDoc) (tq tg : Option String)
    (hvalid : validStore db)
    (hsize : db.length ≤ 1000)
    (htq : ∀ t, tq = some t →
      t.isEmpty = false ∧ ∀ c ∈ lowerL t.data, c ∉ pcreMeta ∧ ¬ c = '.')
    (htg : ∀ ts, tg = some ts → ts.isEmpty = false) :
    ∃ l, get_saved_profiles db tq tg = .ok l ∧
      List.Perm l
        ((db.filter (fun d => decide (specMatches tq tg d))).map docToProfile) := by
  set q := buildProfilesQuery tq tg with hq
  have hfilter : db.filter (evalProfilesQuery q) =
      db.filter (fun d => decide (specMatches tq tg d)) :=
    List.filter_congr (fun d _ => evalQuery_eq_spec tq tg d htq htg)
  have hlen : (sortBySavedAtDesc (db.filter (evalProfilesQuery q))).length ≤ 1000 := by
    rw [(sortBySavedAtDesc_perm _).length_eq]
    exact le_trans (List.length_filter_le _ _) hsize
  have htake : (sortBySavedAtDesc (db.filter (evalProfilesQuery q))).take 1000 =
      sortBySavedAtDesc (db.filter (evalProfilesQuery q)) :=
    List.take_of_length_le hlen
  have hsome : ∀ d ∈ (sortBySavedAtDesc (db.filter (evalProfilesQuery q))).take 1000,
      (deserializeDoc d).isSome = true := by
    intro d hd
    have h1 := List.take_subset _ _ hd
    have h2 := (sortBySavedAtDesc_perm _).mem_iff.mp h1
    obtain ⟨t, hvt, hiso⟩ := hvalid d (List.mem_of_mem_filter h2)
    simp [deserializeDoc, hiso, parseIso_isoformat t hvt]
  obtain ⟨l, hl⟩ := deserializeAll_isSome _ hsome
  refine ⟨l, ?_, ?_⟩
  · simp only [get_saved_profiles, ← hq, hl]
  · rw [deserializeAll_eq_map _ _ hl, htake, ← hfilter]
    exact (sortBySavedAtDesc_perm _).map docToProfile

def docDot : StoredDoc :=
  ⟨"id-d", "ab", "https://linkedin.com/in/dot", "zz", none, isoformat dtA, []⟩

/-- C5 counterexample: `search_term = "a."` is passed to Mongo as a
regular expression, so the stored profile titled `"ab"` is returned even
though `"a."` is not a substring of its title or snippet — the listing is
not "exactly the profiles containing the term as a substring". -/
theorem C5_regex_not_substring_counterexample :
    get_saved_profiles [docDot] (some "a.") none = .ok [docToProfile docDot] ∧
      ¬ containsCI "a." docDot.title ∧ ¬ containsCI "a." docDot.snippet :=
  ⟨rfl, by decide, by decide⟩

/-- C5 witness: on a concrete two-document store, filtering with a plain
term and a tag list returns exactly the matching profile. -/
theorem C5_filter_semantics_witness :
    validStore [docA, docB] ∧
      (∃ l, get_saved_profiles [docA, docB] (some "designer") (some "acme,x") = .ok l ∧
        List.Perm l
          (([docA, docB].filter
              (fun d => decide (specMatches (some "designer") (some "acme,x") d))).map
            docToProfile)) ∧
      ([docA, docB].filter
          (fun d => decide (specMatches (some "designer") (some "acme,x") d))).map
        docToProfile = [docToProfile docB] := by
  have hv : validStore [docA, docB] := by
    intro d hd
    simp only [List.mem_cons, List.not_mem_nil, or_false] at hd
    rcases hd with rfl | rfl
    · exact ⟨dtA, by decide, rfl⟩
    · exact ⟨dtB, by decide, rfl⟩
  refine ⟨hv, C5_filter_semantics [docA, docB] (some "designer") (some "acme,x") hv
    (by decide) ?_ ?_, by decide⟩
  · rintro t ht
    cases ht
    exact ⟨rfl, by decide⟩
  · rintro ts hts
    cases hts
    rfl
